import Mathlib

/-!
Verification of a recursive-descent regular-expression parser.

The source program parses a pattern string into a tree built from these
values: the Python value None (the empty node), the tag dot, a single
character, and the tagged tuples cat, split and repeat.  The parser is a
set of mutually recursive procedures threading an index into the input:
re_parse, parse_split, parse_concat, parse_node, parse_postfix and
parse_int.  Exceptions carry fixed message strings.

The embedding below mirrors the source procedure by procedure.  The input
string is a list of characters and the scan cursor a natural number.  The
mutually recursive procedures take a fuel argument that decreases on every
call; a dedicated lemma proves that the fuel supplied by re_parse is never
exhausted, so the fueled functions compute exactly the runs of the source.
The unbounded repetition bound, a floating-point infinity in the source, is
the value none of an Option Nat.  The digit test of parse_int and the
integer conversion applied to the consumed substring follow the Unicode 14
character data of the source runtime, transcribed exhaustively below: the
digit test is wider than the decimal digits, and the conversion raises a
ValueError on a consumed character without a decimal value.
-/

/-- Parse-tree nodes.  empty is the Python value None, dot the any-character
node, lit a single literal character; cat, split and rep mirror the tagged
tuples of the source, rep carrying the minimum count and an optional maximum
where none stands for the unbounded (infinite) maximum. -/
inductive Node where
  | empty : Node
  | dot : Node
  | lit (c : Char) : Node
  | cat (l r : Node) : Node
  | split (l r : Node) : Node
  | rep (inner : Node) (rmin : Nat) (rmax : Option Nat) : Node
  deriving DecidableEq

/-- Result of one parsing procedure: a new cursor with a value, a raised
exception message, or exhausted fuel (the last never occurs for the fuel
re_parse supplies, as proved below). -/
inductive PRes (α : Type) where
  | ok (idx : Nat) (val : α) : PRes α
  | err (msg : String) : PRes α
  | out : PRes α
  deriving DecidableEq

/-- Result of the entry point re_parse. -/
inductive RRes where
  | ok (node : Node) : RRes
  | err (msg : String) : RRes
  | out : RRes
  deriving DecidableEq

/-- The comparison rmax < rmin of the source, where rmax may be the
floating-point infinity: infinity is smaller than no number. -/
def maxLtMin (rmax : Option Nat) (rmin : Nat) : Bool :=
  match rmax with
  | none => false
  | some m => m < rmin

/-- Code points of the zero of each decimal-digit block of the Unicode 14
character data of the source runtime (general category Nd): these are the
characters its integer conversion accepts, each worth its offset from the
zero of its block, and every block is a full aligned run of ten. -/
def decimalZeros : List Nat :=
  [0x30, 0x660, 0x6F0, 0x7C0, 0x966, 0x9E6, 0xA66, 0xAE6, 0xB66, 0xBE6,
   0xC66, 0xCE6, 0xD66, 0xDE6, 0xE50, 0xED0, 0xF20, 0x1040, 0x1090,
   0x17E0, 0x1810, 0x1946, 0x19D0, 0x1A80, 0x1A90, 0x1B50, 0x1BB0,
   0x1C40, 0x1C50, 0xA620, 0xA8D0, 0xA900, 0xA9D0, 0xA9F0, 0xAA50,
   0xABF0, 0xFF10, 0x104A0, 0x10D30, 0x11066, 0x110F0, 0x11136,
   0x111D0, 0x112F0, 0x11450, 0x114D0, 0x11650, 0x116C0, 0x11730,
   0x118E0, 0x11950, 0x11C50, 0x11D50, 0x11DA0, 0x16A60, 0x16AC0,
   0x16B50, 0x1D7CE, 0x1D7D8, 0x1D7E2, 0x1D7EC, 0x1D7F6, 0x1E140,
   0x1E2F0, 0x1E950, 0x1FBF0]

/-- Decimal value of a character for the integer conversion of the source
runtime: the offset from the zero of its decimal-digit block, or none when
the character is not a decimal digit. -/
def pyDecimalVal (c : Char) : Option Nat :=
  (decimalZeros.find? (fun z => decide (z ≤ c.toNat ∧ c.toNat < z + 10))).map
    (fun z => c.toNat - z)

/-- Ranges of the characters the digit test of the source runtime accepts
although its integer conversion rejects them (numeric type digit without a
decimal value, in the Unicode 14 data): the superscript and subscript
digits, the Ethiopic and New Tai Lue Tham digits, the circled,
parenthesized, full-stop and dingbat digit forms, and the Kharoshthi, Rumi
and Brahmi digits. -/
def digitOnlyRanges : List (Nat × Nat) :=
  [(0xB2, 0xB3), (0xB9, 0xB9), (0x1369, 0x1371), (0x19DA, 0x19DA),
   (0x2070, 0x2070), (0x2074, 0x2079), (0x2080, 0x2089), (0x2460, 0x2468),
   (0x2474, 0x247C), (0x2488, 0x2490), (0x24EA, 0x24EA), (0x24F5, 0x24FD),
   (0x24FF, 0x24FF), (0x2776, 0x277E), (0x2780, 0x2788), (0x278A, 0x2792),
   (0x10A40, 0x10A43), (0x10E60, 0x10E68), (0x11052, 0x1105A),
   (0x1F100, 0x1F10A)]

/-- The digit test the source loop uses on one character, which is wider
than the decimal digits: it also accepts the digit-only characters above,
on which the later integer conversion fails. -/
def pyIsDigit (c : Char) : Bool :=
  (pyDecimalVal c).isSome ||
    digitOnlyRanges.any
      (fun p => decide (p.1 ≤ c.toNat) && decide (c.toNat ≤ p.2))

/-- One step of the integer conversion of the source runtime: extend the
accumulated value by the decimal value of the next character, or fail when
the character has none. -/
def pyIntStep (acc : Option Nat) (c : Char) : Option Nat :=
  match acc with
  | none => none
  | some a =>
    match pyDecimalVal c with
    | some d => some (a * 10 + d)
    | none => none

/-- The integer conversion of the source runtime on the consumed substring:
the decimal value of the digits, or none (a raised ValueError) when the
substring is empty or contains a character without a decimal value.  The
source only applies it to nonempty runs of digit-test characters, so the
sign, whitespace and underscore forms the runtime also accepts cannot
occur. -/
def pyInt (l : List Char) : Option Nat :=
  match l with
  | [] => none
  | _ => l.foldl pyIntStep (some 0)


/-- Digit-run loop of parse_int: advance while the cursor is on a character
the digit test accepts, returning the stop position.  The fuel only bounds
the number of steps; parse_int supplies enough for the whole remaining
input, and the loop never moves once the cursor leaves the input. -/
def parse_int_go (r : List Char) (fuel : Nat) (idx : Nat) : Nat :=
  match fuel with
  | 0 => idx
  | fuel + 1 =>
    match r[idx]? with
    | some c => if pyIsDigit c then parse_int_go r fuel (idx + 1) else idx
    | none => idx

/-- parse_int of the source: consume a maximal run of digit-test characters
from the cursor, then convert the consumed substring; return the new cursor
with the value, none when no character was consumed, or the ValueError of
the conversion when the run contains a character without a decimal value
(such as a superscript digit).  The ValueError message is its fixed part;
the runtime appends the quoted offending literal, dropped here. -/
def parse_int (r : List Char) (idx : Nat) :
    Except String (Nat × Option Nat) :=
  let stop := parse_int_go r (r.length - idx) idx
  if stop = idx then .ok (idx, none)
  else
    match pyInt ((r.drop idx).take (stop - idx)) with
    | some v => .ok (stop, some v)
    | none => .error "invalid literal for int() with base 10"

/-- The sanity checks and node construction ending parse_postfix: raise on
rmax smaller than rmin, raise on rmin above 1000, otherwise build the
repeat node. -/
def mkRepeat (idx : Nat) (node : Node) (rmin : Nat) (rmax : Option Nat) :
    PRes Node :=
  if maxLtMin rmax rmin then .err "min repeat greater than max repeat"
  else if rmin > 1000 then .err "the repetition number is too large"
  else .ok idx (.rep node rmin rmax)

/-- parse_postfix of the source: an optional star, plus or brace suffix
wrapping the given node in a repeat node after the sanity checks. -/
def parse_postfix (r : List Char) (idx : Nat) (node : Node) : PRes Node :=
  match r[idx]? with
  | none => .ok idx node
  | some ch =>
    if ch = '*' then mkRepeat (idx + 1) node 0 none
    else if ch = '+' then mkRepeat (idx + 1) node 1 none
    else if ch = '\x7b' then
      match parse_int r (idx + 1) with
      | .error m => .err m
      | .ok (_, none) => .err "expect int"
      | .ok (idx2, some i) =>
        match
          (if r[idx2]? = some ',' then parse_int r (idx2 + 1)
           else .ok (idx2, some i)) with
        | .error m => .err m
        | .ok (idx3, rmax) =>
          if r[idx3]? = some '\x7d' then mkRepeat (idx3 + 1) node i rmax
          else .err "unbalanced brace"
    else .ok idx node

/-- A pending call of one of the four mutually recursive procedures:
parse_split, its alternation loop, parse_concat, its atom loop, and
parse_node.  The loops carry their accumulator. -/
inductive Call where
  | split (idx : Nat) : Call
  | splitGo (idx : Nat) (prev : Node) : Call
  | concat (idx : Nat) : Call
  | concatGo (idx : Nat) (prev : Node) : Call
  | node (idx : Nat) : Call

/-- The four mutually recursive procedures of the source as one function
over a call descriptor, recursing structurally on fuel: every inner call
runs on the predecessor of the fuel.

split runs one concatenation and then the alternation loop.  splitGo is
that loop: stop at the end, at a closing parenthesis or at any character
other than a bar, else consume the bar, parse a concatenation and fold a
split node.  concat starts the atom loop with the Python value None as
accumulator.  concatGo is that loop: stop at the end, at a bar or at a
closing parenthesis, else parse a node and fold it into the accumulator,
which stays the bare node while the accumulator is still None.  node
returns None at the end of input, else consumes one character: an opening
parenthesis starts a grouped alternation that must be closed by a closing
parenthesis, a dot gives the any-character node, anything else a literal;
a postfix suffix is then applied. -/
def parseRun (fuel : Nat) (r : List Char) : Call → PRes Node :=
  match fuel with
  | 0 => fun _ => .out
  | fuel + 1 => fun c =>
    match c with
    | .split idx =>
      match parseRun fuel r (.concat idx) with
      | .ok idx1 prev => parseRun fuel r (.splitGo idx1 prev)
      | .err m => .err m
      | .out => .out
    | .splitGo idx prev =>
      match r[idx]? with
      | none => .ok idx prev
      | some c =>
        if c = ')' then .ok idx prev
        else if c ≠ '|' then .ok idx prev
        else
          match parseRun fuel r (.concat (idx + 1)) with
          | .ok idx2 node => parseRun fuel r (.splitGo idx2 (.split prev node))
          | .err m => .err m
          | .out => .out
    | .concat idx => parseRun fuel r (.concatGo idx .empty)
    | .concatGo idx prev =>
      match r[idx]? with
      | none => .ok idx prev
      | some c =>
        if c = '|' ∨ c = ')' then .ok idx prev
        else
          match parseRun fuel r (.node idx) with
          | .ok idx1 node =>
            parseRun fuel r (.concatGo idx1
              (match prev with | .empty => node | p => .cat p node))
          | .err m => .err m
          | .out => .out
    | .node idx =>
      match r[idx]? with
      | none => .ok idx .empty
      | some ch =>
        if ch = '(' then
          match parseRun fuel r (.split (idx + 1)) with
          | .ok idx2 node =>
            if r[idx2]? = some ')' then parse_postfix r (idx2 + 1) node
            else .err "unbalanced parenthesis"
          | .err m => .err m
          | .out => .out
        else if ch = '.' then parse_postfix r (idx + 1) .dot
        else parse_postfix r (idx + 1) (.lit ch)

/-- parse_split of the source. -/
def parse_split (fuel : Nat) (r : List Char) (idx : Nat) : PRes Node :=
  parseRun fuel r (.split idx)

/-- parse_concat of the source. -/
def parse_concat (fuel : Nat) (r : List Char) (idx : Nat) : PRes Node :=
  parseRun fuel r (.concat idx)

/-- parse_node of the source. -/
def parse_node (fuel : Nat) (r : List Char) (idx : Nat) : PRes Node :=
  parseRun fuel r (.node idx)

/-- Fuel supplied by the entry point: every call in the descent decreases
the fuel, and the sufficiency lemma below shows this amount is never
exhausted. -/
def reFuel (r : List Char) : Nat := 5 * r.length + 5

/-- re_parse of the source: run the alternation parser from position zero
and require the whole input consumed, raising the unexpected closing
parenthesis message otherwise. -/
def re_parse (r : List Char) : RRes :=
  match parse_split (reFuel r) r 0 with
  | .ok idx node =>
    if idx = r.length then .ok node else .err "unexpected \")\""
  | .err m => .err m
  | .out => .out

/-- Entry point on a string, scanning its list of characters. -/
def parseStr (s : String) : RRes := re_parse s.data

/-- The maximal run of characters accepted by the digit test of the source
runtime starting at a position: what the parse_int loop consumes. -/
def digitRun (r : List Char) (idx : Nat) : List Char :=
  (r.drop idx).takeWhile (fun c => pyIsDigit c)

/-- The repetition-bound invariant of the tree: every repeat node has its
maximum at least its minimum (an absent maximum counts as infinite) and its
minimum at most 1000. -/
def boundsOk : Node → Bool
  | .empty => true
  | .dot => true
  | .lit _ => true
  | .cat l r => boundsOk l && boundsOk r
  | .split l r => boundsOk l && boundsOk r
  | .rep inner rmin rmax =>
      boundsOk inner && !maxLtMin rmax rmin && decide (rmin ≤ 1000)

example : parseStr "" = .ok .empty := by decide
example : parseStr "a" = .ok (.lit 'a') := by decide
example : parseStr "." = .ok .dot := by decide
example : parseStr "ab" = .ok (.cat (.lit 'a') (.lit 'b')) := by decide
example : parseStr "a|b" = .ok (.split (.lit 'a') (.lit 'b')) := by decide
example : parseStr "a+" = .ok (.rep (.lit 'a') 1 none) := by decide
example : parseStr "a\x7b3,6\x7d" = .ok (.rep (.lit 'a') 3 (some 6)) := by
  decide
example : parseStr "a|bc" =
    .ok (.split (.lit 'a') (.cat (.lit 'b') (.lit 'c'))) := by decide
example : parseStr "(a" = .err "unbalanced parenthesis" := by decide
example : parseStr "a)" = .err "unexpected \")\"" := by decide
example : parseStr "a\x7b" = .err "expect int" := by decide
example : parseStr "a\x7b2,1\x7d" =
    .err "min repeat greater than max repeat" := by decide
example : parseStr "a\x7b2000\x7d" =
    .err "the repetition number is too large" := by decide

/-- Indexing into a dropped list shifts the index. -/
theorem getElem?_drop_eq {α : Type} : ∀ (n : Nat) (l : List α) (m : Nat),
    (l.drop n)[m]? = l[n + m]? := by
  intro n
  induction n with
  | zero => intro l m; simp
  | succ k ih =>
    intro l m
    cases l with
    | nil => simp
    | cons a t =>
      have harith : k + 1 + m = (k + m) + 1 := by omega
      simp [harith, ih t m]

/-- The digit-run loop stops exactly after the maximal digit-test run
remaining, for any fuel covering the rest of the input. -/
theorem parse_int_go_stop (r : List Char) :
    ∀ fuel idx, r.length - idx ≤ fuel →
      parse_int_go r fuel idx = idx + (digitRun r idx).length := by
  intro fuel
  induction fuel with
  | zero =>
    intro idx h
    have hle : r.length ≤ idx := by omega
    have hnil : r.drop idx = [] := List.drop_eq_nil_of_le hle
    simp [parse_int_go, digitRun, hnil]
  | succ f ih =>
    intro idx h
    match hg : r[idx]? with
    | none =>
      have hle : r.length ≤ idx := List.getElem?_eq_none_iff.mp hg
      have hnil : r.drop idx = [] := List.drop_eq_nil_of_le hle
      simp [parse_int_go, hg, digitRun, hnil]
    | some c =>
      obtain ⟨hlt, hc⟩ := List.getElem?_eq_some_iff.mp hg
      have hdrop : r.drop idx = c :: r.drop (idx + 1) := by
        rw [List.drop_eq_getElem_cons hlt, hc]
      by_cases hd : pyIsDigit c
      · have hrun : digitRun r idx = c :: digitRun r (idx + 1) := by
          simp [digitRun, hdrop, List.takeWhile_cons, hd]
        have hfu : r.length - (idx + 1) ≤ f := by omega
        rw [show parse_int_go r (f + 1) idx = parse_int_go r f (idx + 1) by
          simp [parse_int_go, hg, hd]]
        rw [ih (idx + 1) hfu, hrun]
        simp only [List.length_cons]
        omega
      · have hrun : digitRun r idx = [] := by
          simp [digitRun, hdrop, List.takeWhile_cons, hd]
        simp [parse_int_go, hg, hd, hrun]

/-- The digit-test run is a prefix of the rest of the input: taking its
length there recovers it. -/
theorem take_digitRun (r : List Char) (idx : Nat) :
    (r.drop idx).take (digitRun r idx).length = digitRun r idx := by
  unfold digitRun
  exact (List.prefix_iff_eq_take.mp (List.takeWhile_prefix _)).symm

/-- Folding the integer conversion from a failed accumulator stays
failed. -/
theorem pyInt_foldl_none (l : List Char) :
    l.foldl pyIntStep none = none := by
  induction l with
  | nil => rfl
  | cons c t ih => simpa [List.foldl_cons, pyIntStep] using ih

/-- From a live accumulator the integer conversion succeeds exactly when
every remaining character has a decimal value. -/
theorem pyInt_foldl_isSome (l : List Char) :
    ∀ a, (l.foldl pyIntStep (some a)).isSome = true ↔
      ∀ c ∈ l, (pyDecimalVal c).isSome = true := by
  induction l with
  | nil => intro a; simp
  | cons c t ih =>
    intro a
    cases hv : pyDecimalVal c with
    | some d => simp [List.foldl_cons, pyIntStep, hv, ih]
    | none => simp [List.foldl_cons, pyIntStep, hv, pyInt_foldl_none]

/-- The integer conversion of a nonempty run succeeds exactly when every
character of the run has a decimal value. -/
theorem pyInt_isSome_iff (l : List Char) (hl : l ≠ []) :
    (pyInt l).isSome = true ↔ ∀ c ∈ l, (pyDecimalVal c).isSome = true := by
  match l with
  | [] => exact absurd rfl hl
  | c :: t => exact pyInt_foldl_isSome (c :: t) 0

/-- parse_int in closed form: the maximal digit-test run decides the
result, the conversion of the run deciding between a value and the raised
ValueError. -/
theorem parse_int_spec (r : List Char) (idx : Nat) :
    parse_int r idx =
      if digitRun r idx = [] then .ok (idx, none)
      else
        match pyInt (digitRun r idx) with
        | some v => .ok (idx + (digitRun r idx).length, some v)
        | none => .error "invalid literal for int() with base 10" := by
  have hstop := parse_int_go_stop r (r.length - idx) idx (Nat.le_refl _)
  by_cases hz : digitRun r idx = []
  · have hidx : parse_int_go r (r.length - idx) idx = idx := by
      rw [hstop, hz]
      simp
    simp [parse_int, hidx, hz]
  · have hL : (digitRun r idx).length ≠ 0 := by
      simpa [List.length_eq_zero] using hz
    have harith : idx + (digitRun r idx).length - idx =
        (digitRun r idx).length := by omega
    simp [parse_int, hstop, hz,
      show idx + (digitRun r idx).length ≠ idx by omega,
      harith, take_digitRun]

/-- The character right after the digit-test run, when present, fails the
digit test: the consumed run is maximal. -/
theorem digitRun_next_not_digit (r : List Char) (idx : Nat) :
    ∀ c, r[idx + (digitRun r idx).length]? = some c →
      pyIsDigit c = false := by
  intro c hc
  have e2 : r[idx + (digitRun r idx).length]? =
      (r.drop idx)[(digitRun r idx).length]? :=
    (getElem?_drop_eq idx r (digitRun r idx).length).symm
  have e1 : r.drop idx =
      digitRun r idx ++ (r.drop idx).dropWhile (fun c => pyIsDigit c) := by
    unfold digitRun
    exact (List.takeWhile_append_dropWhile _ _).symm
  rw [e2] at hc
  rw [e1, List.getElem?_append_right (Nat.le_refl _)] at hc
  simp only [Nat.sub_self] at hc
  have h3 := List.head?_dropWhile_not (fun c => pyIsDigit c) (r.drop idx)
  rw [List.head?_eq_getElem?] at h3
  rw [hc] at h3
  exact h3

/-- Unfolding of parseRun on a split call. -/
theorem parseRun_split_eq (fuel : Nat) (r : List Char) (idx : Nat) :
    parseRun (fuel + 1) r (.split idx) =
      match parseRun fuel r (.concat idx) with
      | .ok idx1 prev => parseRun fuel r (.splitGo idx1 prev)
      | .err m => .err m
      | .out => .out := rfl

/-- Unfolding of parseRun on a splitGo call. -/
theorem parseRun_splitGo_eq (fuel : Nat) (r : List Char) (idx : Nat)
    (prev : Node) :
    parseRun (fuel + 1) r (.splitGo idx prev) =
      match r[idx]? with
      | none => .ok idx prev
      | some c =>
        if c = ')' then .ok idx prev
        else if c ≠ '|' then .ok idx prev
        else
          match parseRun fuel r (.concat (idx + 1)) with
          | .ok idx2 node => parseRun fuel r (.splitGo idx2 (.split prev node))
          | .err m => .err m
          | .out => .out := rfl

/-- Unfolding of parseRun on a concat call. -/
theorem parseRun_concat_eq (fuel : Nat) (r : List Char) (idx : Nat) :
    parseRun (fuel + 1) r (.concat idx) =
      parseRun fuel r (.concatGo idx .empty) := rfl

/-- Unfolding of parseRun on a concatGo call. -/
theorem parseRun_concatGo_eq (fuel : Nat) (r : List Char) (idx : Nat)
    (prev : Node) :
    parseRun (fuel + 1) r (.concatGo idx prev) =
      match r[idx]? with
      | none => .ok idx prev
      | some c =>
        if c = '|' ∨ c = ')' then .ok idx prev
        else
          match parseRun fuel r (.node idx) with
          | .ok idx1 node =>
            parseRun fuel r (.concatGo idx1
              (match prev with | .empty => node | p => .cat p node))
          | .err m => .err m
          | .out => .out := rfl

/-- Unfolding of parseRun on a node call. -/
theorem parseRun_node_eq (fuel : Nat) (r : List Char) (idx : Nat) :
    parseRun (fuel + 1) r (.node idx) =
      match r[idx]? with
      | none => .ok idx .empty
      | some ch =>
        if ch = '(' then
          match parseRun fuel r (.split (idx + 1)) with
          | .ok idx2 node =>
            if r[idx2]? = some ')' then parse_postfix r (idx2 + 1) node
            else .err "unbalanced parenthesis"
          | .err m => .err m
          | .out => .out
        else if ch = '.' then parse_postfix r (idx + 1) .dot
        else parse_postfix r (idx + 1) (.lit ch) := rfl

/-- Inversion of a successful mkRepeat: the cursor is unchanged, the checks
passed and the returned node is the repeat node. -/
theorem mkRepeat_ok_iff (idx : Nat) (node : Node) (rmin : Nat)
    (rmax : Option Nat) (idx' : Nat) (n : Node) :
    mkRepeat idx node rmin rmax = .ok idx' n ↔
      idx' = idx ∧ n = .rep node rmin rmax ∧
        maxLtMin rmax rmin = false ∧ rmin ≤ 1000 := by
  unfold mkRepeat
  by_cases h1 : maxLtMin rmax rmin
  · simp [h1]
  · by_cases h2 : rmin > 1000
    · simp [h1, h2]
    · simp [h1, h2]
      constructor
      · rintro ⟨a, b⟩
        exact ⟨a.symm, b.symm, by omega⟩
      · rintro ⟨a, b, _⟩
        exact ⟨a.symm, b.symm⟩

/-- On a normal return, parse_int never moves the cursor backwards nor
past the end. -/
theorem parse_int_mono (r : List Char) (idx idx' : Nat) (v : Option Nat)
    (h : parse_int r idx = .ok (idx', v)) :
    idx ≤ idx' ∧ (idx ≤ r.length → idx' ≤ r.length) := by
  rw [parse_int_spec] at h
  have h1 : (digitRun r idx).length ≤ (r.drop idx).length := by
    unfold digitRun
    exact (List.takeWhile_sublist _).length_le
  rw [List.length_drop] at h1
  by_cases hz : digitRun r idx = []
  · rw [if_pos hz] at h
    cases h
    exact ⟨Nat.le_refl _, fun hle => hle⟩
  · rw [if_neg hz] at h
    split at h
    · cases h
      exact ⟨Nat.le_add_right _ _, fun hle => by omega⟩
    · exact absurd h (by simp)

/-- A successful parse_postfix never moves the cursor backwards nor past
the end of the input. -/
theorem parse_postfix_mono (r : List Char) (idx : Nat) (node : Node)
    (idx' : Nat) (n : Node) (hle : idx ≤ r.length)
    (h : parse_postfix r idx node = .ok idx' n) :
    idx ≤ idx' ∧ idx' ≤ r.length := by
  unfold parse_postfix at h
  split at h
  · cases h
    exact ⟨Nat.le_refl _, hle⟩
  · rename_i ch hg
    have hlt : idx < r.length := (List.getElem?_eq_some_iff.mp hg).1
    split at h
    · obtain ⟨hidx, -, -, -⟩ := (mkRepeat_ok_iff _ _ _ _ _ _).mp h
      omega
    · split at h
      · obtain ⟨hidx, -, -, -⟩ := (mkRepeat_ok_iff _ _ _ _ _ _).mp h
        omega
      · split at h
        · split at h
          · exact absurd h (by simp)
          · exact absurd h (by simp)
          · rename_i idx2 i hp
            have hp0 := parse_int_mono r (idx + 1) idx2 (some i) hp
            have hp1 : idx + 1 ≤ idx2 ∧ idx2 ≤ r.length :=
              ⟨hp0.1, hp0.2 (by omega)⟩
            split at h
            · exact absurd h (by simp)
            · rename_i idx3 rmax hq
              have hq1 : idx2 ≤ idx3 ∧ idx3 ≤ r.length := by
                by_cases hc : r[idx2]? = some ','
                · rw [if_pos hc] at hq
                  have hlt2 : idx2 < r.length :=
                    (List.getElem?_eq_some_iff.mp hc).1
                  have := parse_int_mono r (idx2 + 1) idx3 rmax hq
                  exact ⟨by omega, this.2 (by omega)⟩
                · rw [if_neg hc] at hq
                  cases hq
                  omega
              split at h
              · rename_i hbr
                have hlt3 : idx3 < r.length :=
                  (List.getElem?_eq_some_iff.mp hbr).1
                obtain ⟨hidx, -, -, -⟩ := (mkRepeat_ok_iff _ _ _ _ _ _).mp h
                omega
              · exact absurd h (by simp)
        · cases h
          exact ⟨Nat.le_refl _, hle⟩

/-- Cursor invariants of the descent, by induction on fuel: a successful
call never moves the cursor backwards nor past the end; the alternation
level can only stop at the end of input or on a closing parenthesis; the
concatenation level only at the end, on a bar or on a closing parenthesis;
and a node parsed while input remains consumes at least one character. -/
theorem parseRun_inv (fuel : Nat) :
    (∀ r idx idx' n, idx ≤ r.length →
        parseRun fuel r (.split idx) = .ok idx' n →
        idx ≤ idx' ∧ idx' ≤ r.length ∧
          (idx' = r.length ∨ r[idx']? = some ')')) ∧
    (∀ r idx prev idx' n, idx ≤ r.length →
        (idx = r.length ∨ r[idx]? = some '|' ∨ r[idx]? = some ')') →
        parseRun fuel r (.splitGo idx prev) = .ok idx' n →
        idx ≤ idx' ∧ idx' ≤ r.length ∧
          (idx' = r.length ∨ r[idx']? = some ')')) ∧
    (∀ r idx idx' n, idx ≤ r.length →
        parseRun fuel r (.concat idx) = .ok idx' n →
        idx ≤ idx' ∧ idx' ≤ r.length ∧
          (idx' = r.length ∨ r[idx']? = some '|' ∨ r[idx']? = some ')')) ∧
    (∀ r idx prev idx' n, idx ≤ r.length →
        parseRun fuel r (.concatGo idx prev) = .ok idx' n →
        idx ≤ idx' ∧ idx' ≤ r.length ∧
          (idx' = r.length ∨ r[idx']? = some '|' ∨ r[idx']? = some ')')) ∧
    (∀ r idx idx' n, idx ≤ r.length →
        parseRun fuel r (.node idx) = .ok idx' n →
        idx ≤ idx' ∧ idx' ≤ r.length ∧ (idx < r.length → idx < idx')) := by
  induction fuel with
  | zero =>
    refine ⟨?_, ?_, ?_, ?_, ?_⟩
    · intro r idx idx' n _ h
      exact absurd h (by simp [parseRun])
    · intro r idx prev idx' n _ _ h
      exact absurd h (by simp [parseRun])
    · intro r idx idx' n _ h
      exact absurd h (by simp [parseRun])
    · intro r idx prev idx' n _ h
      exact absurd h (by simp [parseRun])
    · intro r idx idx' n _ h
      exact absurd h (by simp [parseRun])
  | succ f ih =>
    obtain ⟨ihS, ihSG, ihC, ihCG, ihN⟩ := ih
    refine ⟨?_, ?_, ?_, ?_, ?_⟩
    · -- split: one concat, then the loop
      intro r idx idx' n hle h
      rw [parseRun_split_eq] at h
      split at h
      · rename_i idx1 prev hc
        have h1 := ihC r idx idx1 prev hle hc
        have h2 := ihSG r idx1 prev idx' n h1.2.1 h1.2.2 h
        exact ⟨Nat.le_trans h1.1 h2.1, h2.2.1, h2.2.2⟩
      · exact absurd h (by simp)
      · exact absurd h (by simp)
    · -- splitGo: the alternation loop
      intro r idx prev idx' n hle hentry h
      rw [parseRun_splitGo_eq] at h
      split at h
      · rename_i hg
        cases h
        have hn : r.length ≤ idx := List.getElem?_eq_none_iff.mp hg
        exact ⟨Nat.le_refl _, hle, Or.inl (by omega)⟩
      · rename_i c hg
        have hlt : idx < r.length := (List.getElem?_eq_some_iff.mp hg).1
        split at h
        · rename_i hc
          cases h
          exact ⟨Nat.le_refl _, hle, Or.inr (hc ▸ hg)⟩
        · rename_i hcp
          split at h
          · rename_i hcb
            cases h
            exfalso
            rcases hentry with he | he | he
            · omega
            · rw [hg] at he
              injection he with he
              exact hcb he
            · rw [hg] at he
              injection he with he
              exact hcp he
          · rename_i hcb
            split at h
            · rename_i idx2 node hc2
              have h1 := ihC r (idx + 1) idx2 node (by omega) hc2
              have h2 := ihSG r idx2 (.split prev node) idx' n
                h1.2.1 h1.2.2 h
              have := h1.1
              have := h2.1
              exact ⟨by omega, h2.2.1, h2.2.2⟩
            · exact absurd h (by simp)
            · exact absurd h (by simp)
    · -- concat delegates to concatGo
      intro r idx idx' n hle h
      rw [parseRun_concat_eq] at h
      exact ihCG r idx .empty idx' n hle h
    · -- concatGo: the atom loop
      intro r idx prev idx' n hle h
      rw [parseRun_concatGo_eq] at h
      split at h
      · rename_i hg
        cases h
        have hn : r.length ≤ idx := List.getElem?_eq_none_iff.mp hg
        exact ⟨Nat.le_refl _, hle, Or.inl (by omega)⟩
      · rename_i c hg
        have hlt : idx < r.length := (List.getElem?_eq_some_iff.mp hg).1
        split at h
        · rename_i hc
          cases h
          refine ⟨Nat.le_refl _, hle, Or.inr ?_⟩
          rcases hc with h1 | h1
          · exact Or.inl (h1 ▸ hg)
          · exact Or.inr (h1 ▸ hg)
        · split at h
          · rename_i idx1 node hn
            have h1 := ihN r idx idx1 node hle hn
            have h2 := ihCG r idx1 _ idx' n h1.2.1 h
            exact ⟨Nat.le_trans h1.1 h2.1, h2.2.1, h2.2.2⟩
          · exact absurd h (by simp)
          · exact absurd h (by simp)
    · -- node: one atom
      intro r idx idx' n hle h
      rw [parseRun_node_eq] at h
      split at h
      · rename_i hg
        cases h
        have hn : r.length ≤ idx := List.getElem?_eq_none_iff.mp hg
        exact ⟨Nat.le_refl _, hle, fun hlt => absurd hlt (by omega)⟩
      · rename_i ch hg
        have hlt : idx < r.length := (List.getElem?_eq_some_iff.mp hg).1
        split at h
        · split at h
          · rename_i idx2 node hsp
            have h1 := ihS r (idx + 1) idx2 node (by omega) hsp
            split at h
            · rename_i hpar
              have hlt2 : idx2 < r.length :=
                (List.getElem?_eq_some_iff.mp hpar).1
              have h2 := parse_postfix_mono r (idx2 + 1) node idx' n
                (by omega) h
              have := h1.1
              exact ⟨by omega, h2.2, fun _ => by omega⟩
            · exact absurd h (by simp)
          · exact absurd h (by simp)
          · exact absurd h (by simp)
        · split at h
          · have h2 := parse_postfix_mono r (idx + 1) .dot idx' n
              (by omega) h
            exact ⟨by omega, h2.2, fun _ => by omega⟩
          · have h2 := parse_postfix_mono r (idx + 1) (.lit ch) idx' n
              (by omega) h
            exact ⟨by omega, h2.2, fun _ => by omega⟩

/-- mkRepeat either succeeds or raises; it involves no fuel. -/
theorem mkRepeat_ne_out (idx : Nat) (node : Node) (rmin : Nat)
    (rmax : Option Nat) : mkRepeat idx node rmin rmax ≠ .out := by
  unfold mkRepeat
  split
  · simp
  · split <;> simp

/-- parse_postfix either succeeds or raises; it involves no fuel. -/
theorem parse_postfix_ne_out (r : List Char) (idx : Nat) (node : Node) :
    parse_postfix r idx node ≠ .out := by
  unfold parse_postfix
  split
  · simp
  · split
    · exact mkRepeat_ne_out _ _ _ _
    · split
      · exact mkRepeat_ne_out _ _ _ _
      · split
        · split
          · simp
          · simp
          · split
            · simp
            · split
              · exact mkRepeat_ne_out _ _ _ _
              · simp
        · simp

/-- Fuel sufficiency: with fuel at least five times the remaining input
plus a per-procedure constant, the descent never exhausts its fuel. -/
theorem parseRun_fuel (fuel : Nat) :
    (∀ r idx, idx ≤ r.length → 5 * (r.length - idx) + 5 ≤ fuel →
        parseRun fuel r (.split idx) ≠ .out) ∧
    (∀ r idx prev, idx ≤ r.length → 5 * (r.length - idx) + 4 ≤ fuel →
        parseRun fuel r (.splitGo idx prev) ≠ .out) ∧
    (∀ r idx, idx ≤ r.length → 5 * (r.length - idx) + 3 ≤ fuel →
        parseRun fuel r (.concat idx) ≠ .out) ∧
    (∀ r idx prev, idx ≤ r.length → 5 * (r.length - idx) + 2 ≤ fuel →
        parseRun fuel r (.concatGo idx prev) ≠ .out) ∧
    (∀ r idx, idx ≤ r.length → 5 * (r.length - idx) + 1 ≤ fuel →
        parseRun fuel r (.node idx) ≠ .out) := by
  induction fuel with
  | zero =>
    refine ⟨?_, ?_, ?_, ?_, ?_⟩
    · intro r idx _ hf
      omega
    · intro r idx prev _ hf
      omega
    · intro r idx _ hf
      omega
    · intro r idx prev _ hf
      omega
    · intro r idx _ hf
      omega
  | succ f ih =>
    obtain ⟨ihS, ihSG, ihC, ihCG, ihN⟩ := ih
    refine ⟨?_, ?_, ?_, ?_, ?_⟩
    · -- split
      intro r idx hle hf
      rw [parseRun_split_eq]
      split
      · rename_i idx1 prev hc
        have h1 := (parseRun_inv f).2.2.1 r idx idx1 prev hle hc
        exact ihSG r idx1 prev h1.2.1 (by omega)
      · simp
      · rename_i hc
        exact absurd hc (ihC r idx hle (by omega))
    · -- splitGo
      intro r idx prev hle hf
      rw [parseRun_splitGo_eq]
      split
      · simp
      · rename_i c hg
        have hlt : idx < r.length := (List.getElem?_eq_some_iff.mp hg).1
        split
        · simp
        · split
          · simp
          · split
            · rename_i idx2 node hc2
              have h1 := (parseRun_inv f).2.2.1 r (idx + 1) idx2 node
                (by omega) hc2
              exact ihSG r idx2 _ h1.2.1 (by omega)
            · simp
            · rename_i hc2
              exact absurd hc2 (ihC r (idx + 1) (by omega) (by omega))
    · -- concat
      intro r idx hle hf
      rw [parseRun_concat_eq]
      exact ihCG r idx .empty hle (by omega)
    · -- concatGo
      intro r idx prev hle hf
      rw [parseRun_concatGo_eq]
      split
      · simp
      · rename_i c hg
        have hlt : idx < r.length := (List.getElem?_eq_some_iff.mp hg).1
        split
        · simp
        · split
          · rename_i idx1 node hn
            have h1 := (parseRun_inv f).2.2.2.2 r idx idx1 node hle hn
            have hlt1 : idx < idx1 := h1.2.2 hlt
            exact ihCG r idx1 _ h1.2.1 (by omega)
          · simp
          · rename_i hn
            exact absurd hn (ihN r idx hle (by omega))
    · -- node
      intro r idx hle hf
      rw [parseRun_node_eq]
      split
      · simp
      · rename_i ch hg
        have hlt : idx < r.length := (List.getElem?_eq_some_iff.mp hg).1
        split
        · split
          · split
            · exact parse_postfix_ne_out _ _ _
            · simp
          · simp
          · rename_i hsp
            exact absurd hsp (ihS r (idx + 1) (by omega) (by omega))
        · split
          · exact parse_postfix_ne_out _ _ _
          · exact parse_postfix_ne_out _ _ _

/-- parse_postfix preserves the repetition-bound invariant: it only wraps
the node in a repeat node after the sanity checks passed. -/
theorem parse_postfix_bounds (r : List Char) (idx : Nat) (node : Node)
    (idx' : Nat) (n : Node) (hb : boundsOk node = true)
    (h : parse_postfix r idx node = .ok idx' n) : boundsOk n = true := by
  unfold parse_postfix at h
  split at h
  · cases h
    exact hb
  · split at h
    · obtain ⟨-, hn, hmx, hmn⟩ := (mkRepeat_ok_iff _ _ _ _ _ _).mp h
      subst hn
      simp [boundsOk, hb, hmx, hmn]
    · split at h
      · obtain ⟨-, hn, hmx, hmn⟩ := (mkRepeat_ok_iff _ _ _ _ _ _).mp h
        subst hn
        simp [boundsOk, hb, hmx, hmn]
      · split at h
        · split at h
          · exact absurd h (by simp)
          · exact absurd h (by simp)
          · split at h
            · exact absurd h (by simp)
            · split at h
              · obtain ⟨-, hn, hmx, hmn⟩ := (mkRepeat_ok_iff _ _ _ _ _ _).mp h
                subst hn
                simp [boundsOk, hb, hmx, hmn]
              · exact absurd h (by simp)
        · cases h
          exact hb

/-- Every tree a successful call returns satisfies the repetition-bound
invariant, provided the loop accumulators do. -/
theorem parseRun_bounds (fuel : Nat) :
    (∀ r idx idx' n, parseRun fuel r (.split idx) = .ok idx' n →
        boundsOk n = true) ∧
    (∀ r idx prev idx' n, boundsOk prev = true →
        parseRun fuel r (.splitGo idx prev) = .ok idx' n →
        boundsOk n = true) ∧
    (∀ r idx idx' n, parseRun fuel r (.concat idx) = .ok idx' n →
        boundsOk n = true) ∧
    (∀ r idx prev idx' n, boundsOk prev = true →
        parseRun fuel r (.concatGo idx prev) = .ok idx' n →
        boundsOk n = true) ∧
    (∀ r idx idx' n, parseRun fuel r (.node idx) = .ok idx' n →
        boundsOk n = true) := by
  induction fuel with
  | zero =>
    refine ⟨?_, ?_, ?_, ?_, ?_⟩
    · intro r idx idx' n h
      exact absurd h (by simp [parseRun])
    · intro r idx prev idx' n _ h
      exact absurd h (by simp [parseRun])
    · intro r idx idx' n h
      exact absurd h (by simp [parseRun])
    · intro r idx prev idx' n _ h
      exact absurd h (by simp [parseRun])
    · intro r idx idx' n h
      exact absurd h (by simp [parseRun])
  | succ f ih =>
    obtain ⟨ihS, ihSG, ihC, ihCG, ihN⟩ := ih
    refine ⟨?_, ?_, ?_, ?_, ?_⟩
    · intro r idx idx' n h
      rw [parseRun_split_eq] at h
      split at h
      · rename_i idx1 prev hc
        exact ihSG r idx1 prev idx' n (ihC r idx idx1 prev hc) h
      · exact absurd h (by simp)
      · exact absurd h (by simp)
    · intro r idx prev idx' n hb h
      rw [parseRun_splitGo_eq] at h
      split at h
      · cases h
        exact hb
      · split at h
        · cases h
          exact hb
        · split at h
          · cases h
            exact hb
          · split at h
            · rename_i idx2 node hc2
              have hn := ihC r (idx + 1) idx2 node hc2
              refine ihSG r idx2 (.split prev node) idx' n ?_ h
              simp [boundsOk, hb, hn]
            · exact absurd h (by simp)
            · exact absurd h (by simp)
    · intro r idx idx' n h
      rw [parseRun_concat_eq] at h
      exact ihCG r idx .empty idx' n (by simp [boundsOk]) h
    · intro r idx prev idx' n hb h
      rw [parseRun_concatGo_eq] at h
      split at h
      · cases h
        exact hb
      · split at h
        · cases h
          exact hb
        · split at h
          · rename_i idx1 node hn
            have hbn := ihN r idx idx1 node hn
            refine ihCG r idx1 _ idx' n ?_ h
            cases prev <;> simp_all [boundsOk]
          · exact absurd h (by simp)
          · exact absurd h (by simp)
    · intro r idx idx' n h
      rw [parseRun_node_eq] at h
      split at h
      · cases h
        simp [boundsOk]
      · rename_i ch hg
        split at h
        · split at h
          · rename_i idx2 node hsp
            split at h
            · exact parse_postfix_bounds r (idx2 + 1) node idx' n
                (ihS r (idx + 1) idx2 node hsp) h
            · exact absurd h (by simp)
          · exact absurd h (by simp)
          · exact absurd h (by simp)
        · split at h
          · exact parse_postfix_bounds r (idx + 1) .dot idx' n
              (by simp [boundsOk]) h
          · exact parse_postfix_bounds r (idx + 1) (.lit ch) idx' n
              (by simp [boundsOk]) h

/-- C2: concatenation and alternation chains are built by left-fold and
concatenation binds tighter than alternation: abc parses to
Concat(Concat(a,b),c), the pattern a bar b bar c parses to
Split(Split(a,b),c), and a bar bc parses to Split(a, Concat(b,c)). -/
theorem C2_left_fold_and_precedence :
    parseStr "abc" = .ok (.cat (.cat (.lit 'a') (.lit 'b')) (.lit 'c')) ∧
    parseStr "a|b|c" =
      .ok (.split (.split (.lit 'a') (.lit 'b')) (.lit 'c')) ∧
    parseStr "a|bc" =
      .ok (.split (.lit 'a') (.cat (.lit 'b') (.lit 'c'))) := by
  refine ⟨by decide, by decide, by decide⟩

/-- C3: the postfix repetition suffixes star, plus, a single brace count, an
open-ended brace count and a brace range produce exactly the repeat nodes
with bounds (0, unbounded), (1, unbounded), (3, 3), (3, unbounded) and
(3, 6) on the pattern letter a. -/
theorem C3_repetition_suffixes :
    parseStr "a*" = .ok (.rep (.lit 'a') 0 none) ∧
    parseStr "a+" = .ok (.rep (.lit 'a') 1 none) ∧
    parseStr "a\x7b3\x7d" = .ok (.rep (.lit 'a') 3 (some 3)) ∧
    parseStr "a\x7b3,\x7d" = .ok (.rep (.lit 'a') 3 none) ∧
    parseStr "a\x7b3,6\x7d" = .ok (.rep (.lit 'a') 3 (some 6)) := by
  refine ⟨by decide, by decide, by decide, by decide, by decide⟩

/-- C6: whenever parse_concat starts at the end of the input, at a bar or
at a closing parenthesis, it parses zero atoms and returns the empty node
at the unchanged position (any fuel at least two suffices to reach the loop
guard); in particular the empty pattern parses to Empty and a trailing bar
yields Split with an empty right branch. -/
theorem C6_zero_atoms_empty :
    (∀ fuel r idx, 2 ≤ fuel →
        (r[idx]? = none ∨ r[idx]? = some '|' ∨ r[idx]? = some ')') →
        parse_concat fuel r idx = .ok idx .empty) ∧
    parseStr "" = .ok .empty ∧
    parseStr "a|" = .ok (.split (.lit 'a') .empty) := by
  refine ⟨?_, by decide, by decide⟩
  intro fuel r idx hf hstop
  obtain ⟨f, rfl⟩ : ∃ f, fuel = f + 2 := ⟨fuel - 2, by omega⟩
  show parseRun (f + 2) r (.concat idx) = .ok idx .empty
  rw [parseRun_concat_eq, parseRun_concatGo_eq]
  rcases hstop with hs | hs | hs
  · rw [hs]
  · rw [hs]
    simp
  · rw [hs]
    simp

/-- Witness for C6 at concrete inputs: a bar at the cursor, with fuel two. -/
theorem C6_zero_atoms_empty_witness :
    parse_concat 2 ['|'] 0 = .ok 0 .empty :=
  C6_zero_atoms_empty.1 2 ['|'] 0 (by decide) (by decide)

/-- C8 (amended): parse_int, called at any position up to the length of
the input, consumes the maximal run of characters accepted by the digit
test of the source runtime, which is wider than the decimal digits; it
returns the absent sentinel when the run is empty; when every consumed
character is a decimal digit it returns the decimal value of the run
without raising; but when the consumed run contains a digit-test character
without a decimal value, the integer conversion raises a ValueError of its
own, so the original never-raises contract fails. -/
theorem C8_parse_int_amended (r : List Char) (idx : Nat)
    (_h : idx ≤ r.length) :
    (∀ c ∈ digitRun r idx, pyIsDigit c = true) ∧
    (∀ c, r[idx + (digitRun r idx).length]? = some c →
        pyIsDigit c = false) ∧
    (digitRun r idx = [] → parse_int r idx = .ok (idx, none)) ∧
    ((∀ c ∈ digitRun r idx, (pyDecimalVal c).isSome = true) →
        parse_int r idx =
          .ok (idx + (digitRun r idx).length, pyInt (digitRun r idx))) ∧
    ((∃ c ∈ digitRun r idx, pyDecimalVal c = none) →
        parse_int r idx =
          .error "invalid literal for int() with base 10") := by
  refine ⟨?_, digitRun_next_not_digit r idx, ?_, ?_, ?_⟩
  · intro c hc
    exact List.mem_takeWhile_imp hc
  · intro hz
    rw [parse_int_spec, if_pos hz]
  · intro hall
    rw [parse_int_spec]
    by_cases hz : digitRun r idx = []
    · rw [if_pos hz, hz]
      simp [pyInt]
    · rw [if_neg hz]
      have hsome : (pyInt (digitRun r idx)).isSome = true :=
        (pyInt_isSome_iff _ hz).mpr hall
      obtain ⟨w, hw⟩ := Option.isSome_iff_exists.mp hsome
      rw [hw]
  · rintro ⟨c, hc, hcnone⟩
    have hz : digitRun r idx ≠ [] := by
      intro he
      rw [he] at hc
      exact absurd hc (List.not_mem_nil c)
    have hnone : pyInt (digitRun r idx) = none := by
      cases hh : pyInt (digitRun r idx) with
      | none => rfl
      | some w =>
        have hs : (pyInt (digitRun r idx)).isSome = true := by
          rw [hh]
          rfl
        have := ((pyInt_isSome_iff _ hz).mp hs) c hc
        rw [hcnone] at this
        exact absurd this (by simp)
    rw [parse_int_spec, if_neg hz, hnone]

/-- Witness for the amended C8 on a concrete input: two digits then a
letter, a run of decimal digits only. -/
theorem C8_parse_int_amended_witness :
    parse_int ['1', '2', 'a'] 0 =
      .ok (0 + (digitRun ['1', '2', 'a'] 0).length,
        pyInt (digitRun ['1', '2', 'a'] 0)) :=
  (C8_parse_int_amended ['1', '2', 'a'] 0 (by decide)).2.2.2.1 (by decide)

/-- Counterexample to C8 as stated: on the superscript two, a character
the digit test accepts but the integer conversion rejects, parse_int
raises a ValueError of its own, and the error escapes the whole parse; on
the Arabic-Indic digit three, a decimal digit outside the Latin range, the
consumed run is not a run of characters satisfying the narrow digit
reading yet the value three is returned. -/
theorem C8_parse_int_counterexample :
    parse_int ['²'] 0 = .error "invalid literal for int() with base 10" ∧
    parse_int ['٣'] 0 = .ok (1, some 3) ∧
    parseStr "a\x7b²\x7d" =
      .err "invalid literal for int() with base 10" := by
  refine ⟨by rfl, by rfl, by decide⟩

/-- C10: the cursor invariant: every parsing procedure called at a
position within the input returns, on success, a position that moved
neither backwards nor past the end; parse_node called strictly inside the
input consumes at least one character. -/
theorem C10_cursor_invariant (fuel : Nat) (r : List Char) (idx : Nat) :
    (∀ idx' n, idx ≤ r.length → parse_split fuel r idx = .ok idx' n →
        idx ≤ idx' ∧ idx' ≤ r.length) ∧
    (∀ idx' n, idx ≤ r.length → parse_concat fuel r idx = .ok idx' n →
        idx ≤ idx' ∧ idx' ≤ r.length) ∧
    (∀ idx' n, idx ≤ r.length → parse_node fuel r idx = .ok idx' n →
        idx ≤ idx' ∧ idx' ≤ r.length) ∧
    (∀ node idx' n, idx ≤ r.length →
        parse_postfix r idx node = .ok idx' n →
        idx ≤ idx' ∧ idx' ≤ r.length) ∧
    (∀ idx' v, idx ≤ r.length → parse_int r idx = .ok (idx', v) →
        idx ≤ idx' ∧ idx' ≤ r.length) ∧
    (∀ idx' n, idx < r.length → parse_node fuel r idx = .ok idx' n →
        idx < idx') := by
  refine ⟨?_, ?_, ?_, ?_, ?_, ?_⟩
  · intro idx' n hle h
    have := (parseRun_inv fuel).1 r idx idx' n hle h
    exact ⟨this.1, this.2.1⟩
  · intro idx' n hle h
    have := (parseRun_inv fuel).2.2.1 r idx idx' n hle h
    exact ⟨this.1, this.2.1⟩
  · intro idx' n hle h
    have := (parseRun_inv fuel).2.2.2.2 r idx idx' n hle h
    exact ⟨this.1, this.2.1⟩
  · intro node idx' n hle h
    exact parse_postfix_mono r idx node idx' n hle h
  · intro idx' v hle hok
    have := parse_int_mono r idx idx' v hok
    exact ⟨this.1, this.2 hle⟩
  · intro idx' n hlt h
    exact ((parseRun_inv fuel).2.2.2.2 r idx idx' n (by omega) h).2.2 hlt

/-- Witness for C10 on a concrete run: one literal followed by a bar. -/
theorem C10_cursor_invariant_witness :
    0 ≤ (['a', '|', 'b'] : List Char).length ∧
      0 ≤ 3 ∧ (3 : Nat) ≤ (['a', '|', 'b'] : List Char).length :=
  ⟨by decide,
    (C10_cursor_invariant 20 ['a', '|', 'b'] 0).1 3
      (.split (.lit 'a') (.lit 'b')) (by decide) (by decide)⟩

/-- C9: the parse terminates on every input: with the fuel re_parse
supplies the descent never exhausts it, so every call of re_parse returns
a tree or raises an error with a message. -/
theorem C9_termination (r : List Char) :
    (∃ n, re_parse r = .ok n) ∨ (∃ m, re_parse r = .err m) := by
  have hout : parse_split (reFuel r) r 0 ≠ .out :=
    (parseRun_fuel (reFuel r)).1 r 0 (Nat.zero_le _)
      (by unfold reFuel; omega)
  cases hq : parse_split (reFuel r) r 0 with
  | ok idx node =>
    by_cases hl : idx = r.length
    · exact Or.inl ⟨node, by unfold re_parse; rw [hq]; simp [hl]⟩
    · exact Or.inr ⟨"unexpected \")\"", by unfold re_parse; rw [hq]; simp [hl]⟩
  | err m =>
    exact Or.inr ⟨m, by unfold re_parse; rw [hq]⟩
  | out =>
    exact absurd hq hout

/-- C5: every tree returned by a successful parse satisfies the
repetition-bound invariant: in every repeat node the minimum is at most
the maximum (an absent maximum counting as infinite) and at most 1000. -/
theorem C5_returned_repeat_bounds (r : List Char) (n : Node)
    (h : re_parse r = .ok n) : boundsOk n = true := by
  unfold re_parse at h
  cases hq : parse_split (reFuel r) r 0 with
  | ok idx node =>
    rw [hq] at h
    by_cases hl : idx = r.length
    · simp only [hl, if_pos rfl] at h
      cases h
      exact (parseRun_bounds (reFuel r)).1 r 0 idx n hq
    · simp [hl] at h
  | err m =>
    rw [hq] at h
    simp at h
  | out =>
    rw [hq] at h
    simp at h

/-- Witness for C5: the tree parsed from a star pattern satisfies the
invariant. -/
theorem C5_returned_repeat_bounds_witness :
    boundsOk (.rep (.lit 'a') 0 none) = true :=
  C5_returned_repeat_bounds ['a', '*'] (.rep (.lit 'a') 0 none) (by decide)

/-- C1: the entry point succeeds with the root node exactly when the
top-level alternation consumed the whole input; otherwise it raises the
unexpected closing parenthesis error, and the character at the stopping
position is then necessarily a closing parenthesis. -/
theorem C1_top_level_consumption (r : List Char) (idx : Nat) (n : Node)
    (h : parse_split (reFuel r) r 0 = .ok idx n) :
    (re_parse r = .ok n ↔ idx = r.length) ∧
    (idx ≠ r.length →
        re_parse r = .err "unexpected \")\"" ∧ r[idx]? = some ')') := by
  have hinv := (parseRun_inv (reFuel r)).1 r 0 idx n (Nat.zero_le _) h
  constructor
  · constructor
    · intro hok
      unfold re_parse at hok
      rw [h] at hok
      by_cases hl : idx = r.length
      · exact hl
      · simp [hl] at hok
    · intro hl
      unfold re_parse
      rw [h]
      simp [hl]
  · intro hne
    refine ⟨?_, ?_⟩
    · unfold re_parse
      rw [h]
      simp [hne]
    · rcases hinv.2.2 with he | he
      · exact absurd he hne
      · exact he

/-- Witness for C1: a literal followed by an unmatched closing
parenthesis. -/
theorem C1_top_level_consumption_witness :
    (re_parse ['a', ')'] = .ok (.lit 'a') ↔
        1 = (['a', ')'] : List Char).length) ∧
    (1 ≠ (['a', ')'] : List Char).length →
        re_parse ['a', ')'] = .err "unexpected \")\"" ∧
          (['a', ')'] : List Char)[1]? = some ')') :=
  C1_top_level_consumption ['a', ')'] 1 (.lit 'a') (by decide)

/-- C7: after consuming an opening parenthesis, parse_node parses an
alternation and then requires a closing parenthesis: it raises the
unbalanced parenthesis error exactly when the alternation stopped at the
end of the input, and otherwise consumes the closing parenthesis and
applies the postfix parser; a group in context parses transparently. -/
theorem C7_group_parenthesis (fuel : Nat) (r : List Char)
    (idx idx2 : Nat) (body : Node) (hg : r[idx]? = some '(')
    (hsp : parse_split fuel r (idx + 1) = .ok idx2 body) :
    (idx2 = r.length →
        parse_node (fuel + 1) r idx = .err "unbalanced parenthesis") ∧
    (idx2 ≠ r.length →
        parse_node (fuel + 1) r idx = parse_postfix r (idx2 + 1) body) ∧
    parseStr "(a" = .err "unbalanced parenthesis" ∧
    parseStr "(a|b)c" =
      .ok (.cat (.split (.lit 'a') (.lit 'b')) (.lit 'c')) := by
  have hlt : idx < r.length := (List.getElem?_eq_some_iff.mp hg).1
  have hinv := (parseRun_inv fuel).1 r (idx + 1) idx2 body (by omega) hsp
  have hsp' : parseRun fuel r (.split (idx + 1)) = .ok idx2 body := hsp
  refine ⟨?_, ?_, by decide, by decide⟩
  · intro hl
    have hnone : r[idx2]? = none := List.getElem?_eq_none (by omega)
    show parseRun (fuel + 1) r (.node idx) = _
    rw [parseRun_node_eq, hg]
    simp [hsp', hnone]
  · intro hne
    have hpar : r[idx2]? = some ')' := by
      rcases hinv.2.2 with he | he
      · exact absurd he hne
      · exact he
    show parseRun (fuel + 1) r (.node idx) = _
    rw [parseRun_node_eq, hg]
    simp [hsp', hpar]

/-- Witness for C7: an unclosed group over a single literal. -/
theorem C7_group_parenthesis_witness :
    parse_node 15 ['(', 'a'] 0 = .err "unbalanced parenthesis" :=
  (C7_group_parenthesis 14 ['(', 'a'] 0 2 (.lit 'a') (by decide)
    (by decide)).1 (by decide)

/-- C4: before building a repeat node the postfix parser raises on a
maximum smaller than the minimum, then on a minimum above 1000; the
ceiling is never checked against the maximum, so an arbitrarily large
explicit maximum is accepted. -/
theorem C4_repeat_validation :
    (∀ idx node rmin rmax, maxLtMin rmax rmin = true →
        mkRepeat idx node rmin rmax =
          .err "min repeat greater than max repeat") ∧
    (∀ idx node rmin rmax, maxLtMin rmax rmin = false → 1000 < rmin →
        mkRepeat idx node rmin rmax =
          .err "the repetition number is too large") ∧
    (∀ idx node rmin rmax, maxLtMin rmax rmin = false → rmin ≤ 1000 →
        mkRepeat idx node rmin rmax = .ok idx (.rep node rmin rmax)) ∧
    parseStr "a\x7b2,1\x7d" = .err "min repeat greater than max repeat" ∧
    parseStr "a\x7b2000\x7d" = .err "the repetition number is too large" ∧
    parseStr "a\x7b0,999999999\x7d" =
      .ok (.rep (.lit 'a') 0 (some 999999999)) := by
  refine ⟨?_, ?_, ?_, by decide, by decide, by decide⟩
  · intro idx node rmin rmax h
    simp [mkRepeat, h]
  · intro idx node rmin rmax h1 h2
    simp [mkRepeat, h1, h2]
  · intro idx node rmin rmax h1 h2
    simp [mkRepeat, h1, show ¬rmin > 1000 by omega]

/-- Witness for C4 at concrete bounds: an inverted range, an overlarge
minimum, and a zero minimum with a very large maximum. -/
theorem C4_repeat_validation_witness :
    mkRepeat 0 .empty 2 (some 1) =
      .err "min repeat greater than max repeat" ∧
    mkRepeat 0 .empty 2000 (some 2000) =
      .err "the repetition number is too large" ∧
    mkRepeat 5 .dot 0 (some 999999999) =
      .ok 5 (.rep .dot 0 (some 999999999)) :=
  ⟨C4_repeat_validation.1 0 .empty 2 (some 1) (by decide),
    C4_repeat_validation.2.1 0 .empty 2000 (some 2000) (by decide)
      (by decide),
    C4_repeat_validation.2.2.1 5 .dot 0 (some 999999999) (by decide)
      (by decide)⟩
